import Mathlib

/-!
Verification of the vssh interactive sftp shell (`sftpshell.go` and its
surrounding command/REPL files) against its natural-language specification.

Paths are modelled as lists of characters (`List Char`) at the algorithmic
level, with `String` wrappers at the interface.  Go standard-library
functions that the shell calls (`path/filepath.Clean`, `filepath.Join`,
`filepath.Base`, `filepath.Rel`, `os.RemoveAll`) are modelled from their
documented semantics; everything else is translated from the repository's
source.
-/

set_option maxHeartbeats 1000000

namespace Vssh

/-! ## Path algebra: model of Go `path/filepath` (Unix rules) -/

/-- Helper of `splitSlash`: accumulates the current (reversed) segment while
scanning the character list; a slash or the end of the input emits the
accumulated segment if it is nonempty. -/
def splitSlashGo : List Char → List Char → List (List Char)
  | acc, [] => if acc = [] then [] else [acc.reverse]
  | acc, c :: rest =>
    if c = '/' then
      if acc = [] then splitSlashGo [] rest else acc.reverse :: splitSlashGo [] rest
    else splitSlashGo (c :: acc) rest

/-- The nonempty slash-separated segments of a path, in order.  This is the
segment decomposition that Go's `filepath.Clean` walks over. -/
def splitSlash (l : List Char) : List (List Char) :=
  splitSlashGo [] l

/-- One step of the lexical cleaning of Go's `filepath.Clean`: the stack `st`
holds the output segments in reverse order.  `"."` is dropped; `".."` pops
the previous segment (on a rooted path it is dropped at the root; on an
unrooted path it is kept when there is nothing left to pop). -/
def cleanStep (rooted : Bool) (st : List (List Char)) (seg : List Char) : List (List Char) :=
  if seg = ['.'] then st
  else if seg = ['.', '.'] then
    if rooted then st.tail
    else
      match st with
      | [] => [seg]
      | top :: rest => if top = ['.', '.'] then seg :: st else rest
  else seg :: st

/-- Joins segments with single slashes. -/
def interSlash : List (List Char) → List Char
  | [] => []
  | [s] => s
  | s :: rest => s ++ '/' :: interSlash rest

/-- Renders the (reversed) segment stack produced by `cleanStep` back into a
path, restoring the leading slash of a rooted path; an empty unrooted result
is `"."`, an empty rooted result is `"/"`. -/
def renderClean (rooted : Bool) (st : List (List Char)) : List Char :=
  if rooted then '/' :: interSlash st.reverse
  else if st = [] then ['.'] else interSlash st.reverse

/-- Model of Go's `filepath.Clean` (Unix): the empty path cleans to `"."`;
otherwise the slash-separated segments are processed lexically and
re-rendered. -/
def goClean (s : List Char) : List Char :=
  match s with
  | [] => ['.']
  | c :: _ => renderClean (c = '/') (List.foldl (cleanStep (c = '/')) [] (splitSlash s))

/-- Model of Go's two-argument `filepath.Join`: empty elements are dropped,
the remaining ones are joined with a slash and the result is cleaned; if all
elements are empty the result is empty. -/
def goJoin2 (a b : List Char) : List Char :=
  if a = [] then (if b = [] then [] else goClean b)
  else if b = [] then goClean a
  else goClean (a ++ '/' :: b)

/-- The repository's `join` (sftpshell.go): an absolute `fname` is returned
unchanged; otherwise `filepath.Join(dname, fname)`, re-appending a trailing
slash when `fname` had one. -/
def joinC (dname fname : List Char) : List Char :=
  if fname.head? = some '/' then fname
  else if fname.getLast? = some '/' then goJoin2 dname fname ++ ['/']
  else goJoin2 dname fname

/-- String-level wrapper of the repository's `join`. -/
def join (dname fname : String) : String :=
  (joinC dname.toList fname.toList).asString

/-- Model of Go's `filepath.Base` (Unix): empty path gives `"."`, a path of
only slashes gives `"/"`, otherwise the part after the last slash once
trailing slashes are dropped. -/
def goBase (s : List Char) : List Char :=
  if s = [] then ['.']
  else
    let t := (s.reverse.dropWhile (fun c => c == '/')).reverse
    if t = [] then ['/']
    else (t.reverse.takeWhile (fun c => c != '/')).reverse

/-- The repository's `base` (sftpshell.go): `filepath.Base`, with the root
path mapped to the empty string. -/
def baseC (s : List Char) : List Char :=
  if goBase s = ['/'] then [] else goBase s

/-- String-level wrapper of the repository's `base`. -/
def baseS (s : String) : String :=
  (baseC s.toList).asString

/-! ## Remote file trees and the recursive delete helper of `rmdir` -/

/-- Failures of the modelled backend operations, each carrying the path the
operation was applied to. -/
inductive FsErr where
  | statE : String → FsErr
  | readE : String → FsErr
  | removeE : String → FsErr
deriving DecidableEq

/-- Rendering of a backend failure, standing in for the Go error text. -/
def showErr : FsErr → String
  | .statE p => "stat " ++ p ++ ": failed"
  | .readE p => "readdir " ++ p ++ ": failed"
  | .removeE p => "remove " ++ p ++ ": failed"

mutual
/-- A node of the file tree as the shell's backend sees it.  `file` carries
whether `Stat` on it succeeds and whether `Remove` on it succeeds; `dir`
additionally carries whether `ReadDir` succeeds, and its named children. -/
inductive Entry where
  | file : Bool → Bool → Entry
  | dir : Bool → Bool → Bool → Entries → Entry
/-- The named children of a directory, in listing order. -/
inductive Entries where
  | nil : Entries
  | cons : String → Entry → Entries → Entries
end

/-- Concatenation of two child lists. -/
def Entries.append : Entries → Entries → Entries
  | .nil, ys => ys
  | .cons n e rest, ys => .cons n e (Entries.append rest ys)

/-- The observable outcome of a run of the recursive delete helper:
the paths passed to the backend's `Remove` (in call order), the messages
sent to the error sink (in emission order), and the returned error. -/
structure RmOut where
  attempts : List String
  msgs : List String
  err : Option FsErr
deriving DecidableEq

/-- Keeps the first of two optional errors, as the helper's named return
value `e` does (`if e == nil { e = err }`). -/
def orFirst (a b : Option FsErr) : Option FsErr :=
  match a with
  | some x => some x
  | none => b

mutual
/-- The recursive delete helper `_rmdir` of `rmdir` (sftpshell.go): `Stat`
the argument; a non-directory is removed with a plain `Remove`; otherwise
`ReadDir` it, process every child (see `rmdirRec.children`), and — only when no
child failed — `Remove` the directory itself, otherwise return the first
child error. -/
def rmdirRec : String → Entry → RmOut
  | p, .file st rm =>
    if st then
      if rm then ⟨[p], [], none⟩ else ⟨[p], [], some (.removeE p)⟩
    else ⟨[], [], some (.statE p)⟩
  | p, .dir st rd rm ents =>
    if st then
      if rd then
        let c := rmdirRec.children p ents
        match c.err with
        | some er => ⟨c.attempts, c.msgs, some er⟩
        | none =>
          if rm then ⟨c.attempts ++ [p], c.msgs, none⟩
          else ⟨c.attempts ++ [p], c.msgs, some (.removeE p)⟩
      else ⟨[], [], some (.readE p)⟩
    else ⟨[], [], some (.statE p)⟩
/-- The child loop of `_rmdir`: a directory child is deleted recursively, a
file child with a direct `Remove`; either failure is sent to the error sink
and remembered in the loop's first-error accumulator, and the loop always
continues with the remaining children. -/
def rmdirRec.children : String → Entries → RmOut
  | _, .nil => ⟨[], [], none⟩
  | d, .cons name ent rest =>
    let path := join d name
    let cur : RmOut :=
      match ent with
      | .file _ rm =>
        if rm then ⟨[path], [], none⟩
        else ⟨[path], ["rm on " ++ path ++ ": " ++ showErr (.removeE path)], some (.removeE path)⟩
      | .dir _ _ _ _ =>
        let r := rmdirRec path ent
        match r.err with
        | none => r
        | some er => ⟨r.attempts, r.msgs ++ ["rmdir on " ++ path ++ ": " ++ showErr er], some er⟩
    let rs := rmdirRec.children d rest
    ⟨cur.attempts ++ rs.attempts, cur.msgs ++ rs.msgs, orFirst cur.err rs.err⟩
end

/-- One iteration of the argument loop of the `rmdir` command: resolve the
name against the remote working directory, run the helper, and report a
returned error once through the error sink. -/
def rmdirArg (wd name : String) (ent : Entry) : RmOut :=
  let r := rmdirRec (join wd name) ent
  match r.err with
  | none => r
  | some er => ⟨r.attempts, r.msgs ++ [name ++ ": " ++ showErr er], some er⟩

mutual
/-- Model of Go's `os.RemoveAll` on a tree, from its documented semantics:
removes the path and any children it contains, removes everything it can,
and returns the first error it encounters (`nil` errors aside). -/
def removeAllE : String → Entry → Option FsErr
  | p, .file _ rm => if rm then none else some (.removeE p)
  | p, .dir _ rd rm ents =>
    if rd then
      match removeAllE.children p ents with
      | some e => some e
      | none => if rm then none else some (.removeE p)
    else some (.readE p)
/-- Children pass of the `os.RemoveAll` model. -/
def removeAllE.children : String → Entries → Option FsErr
  | _, .nil => none
  | d, .cons name ent rest =>
    match removeAllE (join d name) ent with
    | some e => some e
    | none => removeAllE.children d rest
end

/-- One iteration of the argument loop of the `lrmdir` command
(sftpshell.go): resolve against the local working directory, call
`os.RemoveAll`, and report a returned error once through the error sink. -/
def lrmdirArg (wd name : String) (ent : Entry) : List String :=
  match removeAllE (join wd name) ent with
  | none => []
  | some er => [name ++ ": " ++ showErr er]

mutual
/-- Follows the spec's words for the recursive delete: a depth-first walk
that removes each directory entry (recursing into sub-directories) and,
after processing all children, removes the directory itself; this is the
order of `Remove` calls such a walk performs. -/
def specDeleteOrder : String → Entry → List String
  | p, .file _ _ => [p]
  | p, .dir _ _ _ ents => specDeleteOrder.children p ents ++ [p]
/-- Child pass of the spec's depth-first delete walk. -/
def specDeleteOrder.children : String → Entries → List String
  | _, .nil => []
  | d, .cons name ent rest => specDeleteOrder (join d name) ent ++ specDeleteOrder.children d rest
end

mutual
/-- All backend operations on the tree succeed. -/
def allOk : Entry → Bool
  | .file st rm => st && rm
  | .dir st rd rm ents => st && rd && rm && allOk.children ents
/-- All backend operations on every child succeed. -/
def allOk.children : Entries → Bool
  | .nil => true
  | .cons _ ent rest => allOk ent && allOk.children rest
end

/-! ## The batch `rm` command -/

/-- Flat file store for the batch remove: the set of paths that currently
exist as removable files.  `Remove` succeeds exactly on an existing path and
deletes it. -/
def removeFs (fs : List String) (p : String) : List String × Bool :=
  if p ∈ fs then (fs.filter (fun q => q ≠ p), true) else (fs, false)

/-- The argument loop of the `rm` command (sftpshell.go): each name is
resolved against the remote working directory and removed; a failure is
reported once through the error sink and the loop continues.  Returns the
final store and the error-sink messages in emission order. -/
def rmLoop (wd : String) (fs : List String) : List String → List String × List String
  | [] => (fs, [])
  | name :: rest =>
    let path := join wd name
    let (fs2, ok) := removeFs fs path
    let (fs3, msgs) := rmLoop wd fs2 rest
    (fs3, (if ok then [] else [name ++ ": " ++ showErr (.removeE path)]) ++ msgs)

/-- Result of a batch command handler: final store, error-sink messages, and
the handler's returned `(string, error)` pair. -/
structure BatchOut where
  fs : List String
  msgs : List String
  out : String
  err : Option String
deriving DecidableEq

/-- The `rm` command handler (sftpshell.go): an empty argument list is a
hard error; otherwise every argument is attempted and the handler returns
`("", nil)` regardless of per-item failures. -/
def rmCmd (wd : String) (fs : List String) (args : List String) : BatchOut :=
  if args = [] then ⟨fs, [], "", some "rm needs at least one argument"⟩
  else
    let (fs2, msgs) := rmLoop wd fs args
    ⟨fs2, msgs, "", none⟩

/-- Follows the spec's words: the number of per-item failures a batch `rm`
run encounters, walking the arguments over the same evolving store. -/
def rmSpecFailures (wd : String) (fs : List String) : List String → Nat
  | [] => 0
  | name :: rest =>
    let (fs2, ok) := removeFs fs (join wd name)
    (if ok then 0 else 1) + rmSpecFailures wd fs2 rest

/-! ## The listing engine `_ls`: per-match processing -/

/-- What `Stat` reports about a path in the listing engine. -/
inductive LsInfo where
  | file : LsInfo
  | dir : LsInfo
deriving DecidableEq

/-- Model of Go's `filepath.Rel`, restricted to the cases the listing engine
exercises here: the target equals the base or lies strictly below it.  Other
base/target shapes are not used by any theorem in this file. -/
def goRel (base targ : String) : Option String :=
  if targ = base then some "."
  else if List.isPrefixOf (base.toList ++ ['/']) targ.toList then
    some ((targ.toList.drop (base.toList.length + 1)).asString)
  else none

/-- The directory-to-entries map of `_ls`, as an association list with
set-valued entries (`strset` collapses duplicates). -/
abbrev Buckets := List (String × List String)

/-- Adds a name to the set held at key `k`, creating the bucket if needed
and collapsing duplicates. -/
def bucketAdd (bs : Buckets) (k v : String) : Buckets :=
  match bs with
  | [] => [(k, [v])]
  | (k2, vs) :: rest =>
    if k2 = k then (k2, if v ∈ vs then vs else vs ++ [v]) :: rest
    else (k2, vs) :: bucketAdd rest k v

/-- Creates an empty bucket at key `k` if none exists (`files[relMatch] =
strset.New()` under the `!ok` guard). -/
def ensureBucket (bs : Buckets) (k : String) : Buckets :=
  match bs with
  | [] => [(k, [])]
  | (k2, vs) :: rest => if k2 = k then (k2, vs) :: rest else (k2, vs) :: ensureBucket rest k

/-- The body of the `allmatches.Each` closure of `_ls` (sftpshell.go,
lines 629–654), for one match: compute the relative name, `Stat` the match,
and either record the directory's entries or add the file to the current
bucket.  Any failure of `Rel`, `Stat` or `ReadDir` skips the match.  The
second component is the list of error-sink messages the step emits: the
closure contains no call to the error sink, so it is empty in every
branch. -/
def lsStep (wd : String) (stat : String → Option LsInfo)
    (readdir : String → Option (List String)) (files : Buckets) (mtch : String) :
    Buckets × List String :=
  match goRel wd mtch with
  | none => (files, [])
  | some relMatch =>
    match stat mtch with
    | none => (files, [])
    | some .dir =>
      match readdir mtch with
      | none => (files, [])
      | some entries =>
        (entries.foldl (fun b e => bucketAdd b relMatch e) (ensureBucket files relMatch), [])
    | some .file => (bucketAdd files "." relMatch, [])

/-- The whole match-processing loop of `_ls`, starting from the initial map
that holds only the empty current-directory bucket. -/
def lsCollect (wd : String) (stat : String → Option LsInfo)
    (readdir : String → Option (List String)) (mats : List String) :
    Buckets × List String :=
  mats.foldl
    (fun acc m =>
      let (b, msgs) := lsStep wd stat readdir acc.1 m
      (b, acc.2 ++ msgs))
    ([("." , [])], [])

/-! ## Recursive directory copy: `getdir` (download) and `putdir` (upload) -/

mutual
/-- A node of the copy source tree: a regular file carries whether its whole
single-copy pipeline (open, create, stream) succeeds; a directory carries
whether listing it succeeds, and its children; `other` is a non-regular,
non-directory entry. -/
inductive SNode where
  | fileS : Bool → SNode
  | dirS : Bool → SNodes → SNode
  | otherS : SNode
/-- The named children of a copy source directory, in listing order. -/
inductive SNodes where
  | nil : SNodes
  | cons : String → SNode → SNodes → SNodes
end

/-- Outcome of a `Mkdir` call on the destination backend: created, failed
because the directory already exists, or failed for another reason. -/
inductive MkRes where
  | created : MkRes
  | already : MkRes
  | failedM : MkRes
deriving DecidableEq

/-- The observable outcome of a recursive copy: the paths passed to the
destination `Mkdir` (in call order), the source files whose single-copy
succeeded, the error-sink messages, the info-sink messages, and the
function's returned error. -/
structure CopyOut where
  mks : List String
  copies : List String
  msgs : List String
  infos : List String
  err : Option String
deriving DecidableEq

mutual
/-- `getdir` (sftpshell.go): `ReadDir` the remote directory, `Mkdir` the
local destination directory named after its basename — tolerating an
already-exists failure — then copy every child (see `getdir.kids`), and
finally report the directory as downloaded on the info sink. -/
def getdirM (mk : String → MkRes) : String → String → SNode → CopyOut
  | tgt, rdir, .dirS rd ents =>
    if rd then
      let newDir := join tgt (baseS rdir)
      match mk newDir with
      | .failedM => ⟨[newDir], [], [], [], some ("mkdir " ++ newDir ++ ": failed")⟩
      | _ =>
        let c := getdirM.kids mk newDir rdir ents
        ⟨newDir :: c.mks, c.copies, c.msgs, c.infos ++ ["downloaded " ++ rdir], none⟩
    else ⟨[], [], [], [], some ("readdir " ++ rdir ++ ": failed")⟩
  | _, rdir, .fileS _ => ⟨[], [], [], [], some ("readdir " ++ rdir ++ ": failed")⟩
  | _, rdir, .otherS => ⟨[], [], [], [], some ("readdir " ++ rdir ++ ": failed")⟩
/-- The child loop of `getdir`: sub-directories are copied recursively and
regular files with `getfile` (which reports success on the info sink);
either failure is reported on the error sink and the loop continues;
anything else is skipped silently. -/
def getdirM.kids (mk : String → MkRes) : String → String → SNodes → CopyOut
  | _, _, .nil => ⟨[], [], [], [], none⟩
  | newDir, rdir, .cons name child rest =>
    let fname := join rdir name
    let cur : CopyOut :=
      match child with
      | .dirS _ _ =>
        let r := getdirM mk newDir fname child
        match r.err with
        | none => r
        | some e => ⟨r.mks, r.copies, r.msgs ++ ["download " ++ fname ++ ": " ++ e], r.infos, none⟩
      | .fileS ok =>
        if ok then ⟨[], [fname], [], ["downloaded " ++ fname], none⟩
        else ⟨[], [], ["download " ++ fname ++ ": copy failed"], [], none⟩
      | .otherS => ⟨[], [], [], [], none⟩
    let rs := getdirM.kids mk newDir rdir rest
    ⟨cur.mks ++ rs.mks, cur.copies ++ rs.copies, cur.msgs ++ rs.msgs,
      cur.infos ++ rs.infos, none⟩
end

mutual
/-- `putdir` (sftpshell.go): same shape as `getdir` with the backends
swapped — `ReadDir` the local directory, `Mkdir` the remote destination
(tolerating already-exists), copy every child, report on the info sink. -/
def putdirM (mk : String → MkRes) : String → String → SNode → CopyOut
  | tgt, ldir, .dirS rd ents =>
    if rd then
      let newDir := join tgt (baseS ldir)
      match mk newDir with
      | .failedM => ⟨[newDir], [], [], [], some ("mkdir " ++ newDir ++ ": failed")⟩
      | _ =>
        let c := putdirM.kids mk newDir ldir ents
        ⟨newDir :: c.mks, c.copies, c.msgs, c.infos ++ ["uploaded " ++ ldir], none⟩
    else ⟨[], [], [], [], some ("readdir " ++ ldir ++ ": failed")⟩
  | _, ldir, .fileS _ => ⟨[], [], [], [], some ("readdir " ++ ldir ++ ": failed")⟩
  | _, ldir, .otherS => ⟨[], [], [], [], some ("readdir " ++ ldir ++ ": failed")⟩
/-- The child loop of `putdir`. -/
def putdirM.kids (mk : String → MkRes) : String → String → SNodes → CopyOut
  | _, _, .nil => ⟨[], [], [], [], none⟩
  | newDir, ldir, .cons name child rest =>
    let fname := join ldir name
    let cur : CopyOut :=
      match child with
      | .dirS _ _ =>
        let r := putdirM mk newDir fname child
        match r.err with
        | none => r
        | some e => ⟨r.mks, r.copies, r.msgs ++ ["upload " ++ fname ++ ": " ++ e], r.infos, none⟩
      | .fileS ok =>
        if ok then ⟨[], [fname], [], ["uploaded " ++ fname], none⟩
        else ⟨[], [], ["upload " ++ fname ++ ": copy failed"], [], none⟩
      | .otherS => ⟨[], [], [], [], none⟩
    let rs := putdirM.kids mk newDir ldir rest
    ⟨cur.mks ++ rs.mks, cur.copies ++ rs.copies, cur.msgs ++ rs.msgs,
      cur.infos ++ rs.infos, none⟩
end

/-! ## Working-directory navigation: `cd` and `lcd` -/

/-- What `Stat` reports about a navigation target. -/
structure StatInfo where
  isDir : Bool
deriving DecidableEq

/-- The mutable working-directory fields of the shell state. -/
structure ShellSt where
  LocalWD : String
  RemoteWD : String
  initRemoteWD : String
deriving DecidableEq

/-- A handler's returned `(string, error)` pair. -/
structure CmdRes where
  out : String
  err : Option String
deriving DecidableEq

/-- The path `cd` navigates to: the single argument — or, with no argument,
the initial remote directory captured at session start — resolved against
the remote working directory. -/
def cdTarget (st : ShellSt) (args : List String) : String :=
  join st.RemoteWD (args.headD st.initRemoteWD)

/-- The `cd` handler (sftpshell.go): reject more than one argument, default
to the initial remote directory, `Stat` the target, require a directory,
require it to be openable, and only then commit the new remote working
directory. -/
def cdModel (stat : String → Option StatInfo) (openOk : String → Bool)
    (st : ShellSt) (args : List String) : ShellSt × CmdRes :=
  if args.length > 1 then (st, ⟨"", some "cd takes only one argument"⟩)
  else
    let d := cdTarget st args
    match stat d with
    | none => (st, ⟨"", some ("stat " ++ d ++ ": failed")⟩)
    | some i =>
      if !i.isDir then (st, ⟨"", some "not a directory"⟩)
      else if !openOk d then (st, ⟨"", some ("open " ++ d ++ ": failed")⟩)
      else ({ st with RemoteWD := d }, ⟨"", none⟩)

/-- The path `lcd` navigates to: the single argument — or, with no argument,
the home directory — resolved against the local working directory. -/
def lcdTarget (home : Option String) (st : ShellSt) (args : List String) : String :=
  join st.LocalWD (args.headD (home.getD ""))

/-- The `lcd` handler (sftpshell.go): reject more than one argument, default
to the home directory (whose lookup may itself fail), `Stat` the target,
require a directory, require it to be openable, and only then commit the new
local working directory. -/
def lcdModel (stat : String → Option StatInfo) (openOk : String → Bool)
    (home : Option String) (st : ShellSt) (args : List String) : ShellSt × CmdRes :=
  if args.length > 1 then (st, ⟨"", some "lcd takes only one argument"⟩)
  else if args = [] ∧ home = none then (st, ⟨"", some "homedir: failed"⟩)
  else
    let d := lcdTarget home st args
    match stat d with
    | none => (st, ⟨"", some ("stat " ++ d ++ ": failed")⟩)
    | some i =>
      if !i.isDir then (st, ⟨"", some "not a directory"⟩)
      else if !openOk d then (st, ⟨"", some ("open " ++ d ++ ": failed")⟩)
      else ({ st with LocalWD := d }, ⟨"", none⟩)

/-! ## The REPL command table and the dispatcher -/

/-- The keys of the handler table built by `newShellState` (sftpshell.go,
lines 57–81). -/
def methodNames : List String :=
  ["less", "lless", "ls", "lls", "ll", "lll", "cd", "lcd", "exit", "logout",
   "pwd", "lpwd", "get", "put", "mkdir", "mkdirall", "lmkdir", "lmkdirall",
   "rm", "lrm", "rmdir", "lrmdir", "rename"]

/-- The command-name completion list of the REPL (the `commands` slice of
the sftp command's action, lines 140–151 of the REPL source file). -/
def replCommands : List String :=
  ["ls", "lls", "ll", "lll", "get", "put", "cd", "lcd", "less", "lless",
   "mkdir", "lmkdir", "mkdirall", "lmkdirall", "pwd", "lpwd", "rename",
   "rm", "lrm", "rmdir", "lrmdir", "exit", "logout", "help"]

/-- A whitespace character, as Go's `strings.TrimSpace` and the tokenizer
treat it. -/
def isSpaceChar (c : Char) : Bool :=
  c == ' ' || c == '\t' || c == '\n' || c == '\r'

/-- Model of Go's `strings.TrimSpace`: drops leading and trailing
whitespace. -/
def trimSpaceC (l : List Char) : List Char :=
  ((l.dropWhile isSpaceChar).reverse.dropWhile isSpaceChar).reverse

/-- Helper of `parseWords`: accumulates the current (reversed) word while
scanning; whitespace or the end of the input emits the accumulated word if
it is nonempty. -/
def wordsGo : List Char → List Char → List String
  | acc, [] => if acc = [] then [] else [acc.reverse.asString]
  | acc, c :: rest =>
    if isSpaceChar c then
      if acc = [] then wordsGo [] rest else acc.reverse.asString :: wordsGo [] rest
    else wordsGo (c :: acc) rest

/-- Model of the shellwords tokenizer for quote-free input: splits on
whitespace.  The dispatch theorems only apply it to plain unquoted lines,
where this matches the library's behaviour. -/
def parseWords (l : List Char) : List String :=
  wordsGo [] l

/-- Model of Go's `strings.ToLower` for ASCII input. -/
def toLowerS (s : String) : String :=
  (s.toList.map Char.toLower).asString

/-- Result of `dispatch` (sftpshell.go): an empty line is a no-op; an
unknown first token is the hard error `"unknown command: <cmd>"`; otherwise
the named handler runs on the remaining tokens. -/
inductive DispatchRes where
  | emptyLine : DispatchRes
  | noToken : DispatchRes
  | unknown : String → String → DispatchRes
  | handled : String → List String → DispatchRes
deriving DecidableEq

/-- The `dispatch` function (sftpshell.go): trim the line, tokenize it,
lower-case the first token, and look it up in the handler table. -/
def dispatchModel (line : String) : DispatchRes :=
  let l := trimSpaceC line.toList
  if l = [] then .emptyLine
  else
    match parseWords l with
    | [] => .noToken
    | c :: rest =>
      let cmd := toLowerS c
      if cmd ∈ methodNames then .handled cmd rest
      else .unknown cmd ("unknown command: " ++ cmd)

/-! ## The completion engine -/

/-- A directory entry as the completion engine sees it. -/
structure FInfo where
  name : String
  isDir : Bool
  regular : Bool
deriving DecidableEq

/-- `strings.HasPrefix`, at the character-list level. -/
def hasPrefixS (s pre : String) : Bool :=
  List.isPrefixOf pre.toList s.toList

/-- Modelled from the spec: the Completion Engine finally shell-quotes each
surviving candidate name (the `quote` helper is not part of the provided
sources).  A name without characters special to the shell is left
unchanged; otherwise it is wrapped in double quotes. -/
def quoteModel (s : String) : String :=
  if s.toList.any (fun c => c == ' ' || c == '\'' || c == '"') then
    "\"" ++ s ++ "\""
  else s

/-- `completeFiles` (sftpshell.go): keep only directories (marked with a
trailing slash) or only regular files or everything (directories marked),
filter by the candidate prefix, and shell-quote the survivors; no survivors
yields the empty list. -/
def completeFiles (cand : String) (files : List FInfo) (onlyDirs onlyFiles : Bool) :
    List String :=
  let props :=
    if onlyDirs then
      (files.filter (fun i => i.isDir)).map (fun i => i.name ++ "/")
    else if onlyFiles then
      (files.filter (fun i => i.regular)).map (fun i => i.name)
    else
      files.map (fun i => if i.isDir then i.name ++ "/" else i.name)
  let props := if cand ≠ "" then props.filter (fun s => hasPrefixS s cand) else props
  if props = [] then [] else props.map quoteModel

/-! ## Theorems -/

/-- C8: completion for `cd` (directories-only) over a directory holding the
directories `foo` and `foobar` and the regular file `bar.txt`, with
candidate prefix `"foo"`, yields exactly `foo/` and `foobar/` — each with a
trailing separator — and not `bar.txt`. -/
theorem c8_completeCd_foo :
    completeFiles "foo"
        [⟨"foo", true, false⟩, ⟨"foobar", true, false⟩, ⟨"bar.txt", false, true⟩]
        true false = ["foo/", "foobar/"] := by
  decide

/-- C9: the REPL's command-name completion list contains `"help"`, the
handler table registered by `newShellState` does not, and dispatching the
input line `"help"` therefore returns the hard error
`"unknown command: help"`. -/
theorem c9_help_unknown :
    "help" ∈ replCommands ∧ "help" ∉ methodNames ∧
      dispatchModel "help" = .unknown "help" "unknown command: help" := by
  refine ⟨by decide, by decide, by decide⟩

/-- C10: when `Stat` succeeds on an argument of the recursive delete helper
and reports a non-directory, the helper removes it as a plain file — the
only `Remove` attempt is on that path — and returns that call's result,
with no "not a directory" failure. -/
theorem c10_rmdir_nondir (p : String) (rm : Bool) :
    rmdirRec p (.file true rm) =
      ⟨[p], [], if rm then none else some (.removeE p)⟩ := by
  cases rm <;> simp [rmdirRec]

/-- C1, counterexample: on the tree `/d` holding the single unremovable
file child `a`, the helper returns the child's error but never attempts the
removal of `/d` itself — contradicting the claim that the parent
directory's removal is still attempted. -/
theorem c1_counterexample :
    (rmdirRec "/d" (.dir true true true (.cons "a" (.file true false) .nil))).err
        = some (.removeE "/d/a")
    ∧ "/d" ∉ (rmdirRec "/d"
        (.dir true true true (.cons "a" (.file true false) .nil))).attempts := by
  decide

/-- C5, counterexample: on the tree `/w/d` holding the two unremovable file
children `a` and `b`, `lrmdir`'s per-argument step emits exactly one
error-sink message (it delegates to `os.RemoveAll`), while `rmdir`'s emits
three (one per failed child plus the argument-level report) — so `lrmdir`
does not report each per-child failure through the error sink. -/
theorem c5_counterexample :
    (lrmdirArg "/w" "d"
        (.dir true true true
          (.cons "a" (.file true false) (.cons "b" (.file true false) .nil)))).length = 1
    ∧ (rmdirArg "/w" "d"
        (.dir true true true
          (.cons "a" (.file true false) (.cons "b" (.file true false) .nil)))).msgs.length = 3 := by
  decide

/-- C2, counterexample: a listing run over the single match `/w/x` whose
`Stat` fails emits no error-sink message at all — the failure is silently
dropped, contradicting "every per-item failure passes through the error
sink exactly once". -/
theorem c2_counterexample :
    lsCollect "/w" (fun _ => none) (fun _ => none) ["/w/x"] = ([(".", [])], []) := by
  decide

/-- C3, counterexample: with working directory `/a` and the relative path
`..`, `join` cleans the result to `/`, which does not start with `/a` — so
`join(wd, p)` does not start with `wd` for every `p` that does not start
with the separator. -/
theorem c3_counterexample :
    ¬ (['/', 'a'] : List Char) <+: joinC ['/', 'a'] ['.', '.'] := by
  decide

/-- C7: the working-directory field touched by `cd` (`RemoteWD`) or `lcd`
(`LocalWD`) is committed to the navigation target exactly when the handler
returns no error, and is left unchanged whenever the handler returns an
error (target missing, not a directory, or unopenable). -/
theorem c7_cd_lcd_commit (stat : String → Option StatInfo) (openOk : String → Bool)
    (home : Option String) (st : ShellSt) (args : List String) :
    ((cdModel stat openOk st args).1 =
      if (cdModel stat openOk st args).2.err = none then
        { st with RemoteWD := cdTarget st args }
      else st)
    ∧ ((lcdModel stat openOk home st args).1 =
      if (lcdModel stat openOk home st args).2.err = none then
        { st with LocalWD := lcdTarget home st args }
      else st) := by
  constructor
  · unfold cdModel
    split
    · simp
    · cases h : stat (cdTarget st args) with
      | none => simp [h]
      | some i =>
        by_cases hd : i.isDir
        · by_cases ho : openOk (cdTarget st args) <;> simp [h, hd, ho]
        · simp [h, hd]
  · unfold lcdModel
    split
    · simp
    · split
      · simp
      · cases h : stat (lcdTarget home st args) with
        | none => simp [h]
        | some i =>
          by_cases hd : i.isDir
          · by_cases ho : openOk (lcdTarget home st args) <;> simp [h, hd, ho]
          · simp [h, hd]

/-- C6: a batch `rm a b c` where `b` does not exist but `a` and `c` do
(and resolve to distinct paths) removes `a` and `c`, reports exactly one
error through the error sink, and returns no top-level error — the handler
result is the empty string and a nil error. -/
theorem c6_rm_batch (wd a b c : String) (fs : List String)
    (ha : join wd a ∈ fs) (hb : join wd b ∉ fs) (hc : join wd c ∈ fs)
    (hac : join wd a ≠ join wd c) :
    join wd a ∉ (rmCmd wd fs [a, b, c]).fs
    ∧ join wd c ∉ (rmCmd wd fs [a, b, c]).fs
    ∧ (rmCmd wd fs [a, b, c]).msgs.length = 1
    ∧ (rmCmd wd fs [a, b, c]).out = ""
    ∧ (rmCmd wd fs [a, b, c]).err = none := by
  have hb2 : join wd b ∉ fs.filter (fun q => q ≠ join wd a) := by
    intro h
    exact hb (List.mem_of_mem_filter h)
  have hc2 : join wd c ∈ fs.filter (fun q => q ≠ join wd a) := by
    refine List.mem_filter.2 ⟨hc, ?_⟩
    simpa using fun h => hac h.symm
  simp only [rmCmd, rmLoop, removeFs, if_pos ha, if_neg hb2, if_pos hc2]
  simp only [if_true, if_false, reduceIte]
  refine ⟨?_, ?_, by simp, by simp, by simp⟩
  · intro h
    have := (List.mem_filter.1 (List.mem_of_mem_filter h)).2
    simp at this
  · intro h
    have := (List.mem_filter.1 h).2
    simp at this

/-- C4: both recursive directory copies — `getdir` for download and
`putdir` for upload — attempt to create the destination directory and do
not fail when it already exists: in that case they proceed to copy the
source directory's entries exactly as when the directory was created, and
return no error. -/
theorem c4_copydir_tolerates_already (mk : String → MkRes) (tgt src : String)
    (ents : SNodes) (hmk : mk (join tgt (baseS src)) = .already) :
    (getdirM mk tgt src (.dirS true ents) =
      ⟨join tgt (baseS src) :: (getdirM.kids mk (join tgt (baseS src)) src ents).mks,
        (getdirM.kids mk (join tgt (baseS src)) src ents).copies,
        (getdirM.kids mk (join tgt (baseS src)) src ents).msgs,
        (getdirM.kids mk (join tgt (baseS src)) src ents).infos ++ ["downloaded " ++ src],
        none⟩)
    ∧ (putdirM mk tgt src (.dirS true ents) =
      ⟨join tgt (baseS src) :: (putdirM.kids mk (join tgt (baseS src)) src ents).mks,
        (putdirM.kids mk (join tgt (baseS src)) src ents).copies,
        (putdirM.kids mk (join tgt (baseS src)) src ents).msgs,
        (putdirM.kids mk (join tgt (baseS src)) src ents).infos ++ ["uploaded " ++ src],
        none⟩) := by
  constructor
  · unfold getdirM
    simp [hmk]
  · unfold putdirM
    simp [hmk]

/-- `orFirst` ignores a `none` on the left. -/
theorem orFirst_none_left (b : Option FsErr) : orFirst none b = b := rfl

/-- `orFirst` is associative, so "first error" is well defined over
concatenated child lists. -/
theorem orFirst_assoc (a b c : Option FsErr) :
    orFirst (orFirst a b) c = orFirst a (orFirst b c) := by
  cases a <;> cases b <;> rfl

/-- The child loop of `_rmdir` processes a concatenated child list as both
halves in sequence: attempts and sink messages concatenate and the
remembered error is the first of the two halves' errors — the loop never
stops early. -/
theorem rmdirRec_children_append (d : String) (xs ys : Entries) :
    rmdirRec.children d (Entries.append xs ys) =
      ⟨(rmdirRec.children d xs).attempts ++ (rmdirRec.children d ys).attempts,
        (rmdirRec.children d xs).msgs ++ (rmdirRec.children d ys).msgs,
        orFirst (rmdirRec.children d xs).err (rmdirRec.children d ys).err⟩ := by
  cases xs with
  | nil => simp [Entries.append, rmdirRec.children, orFirst_none_left]
  | cons name ent rest =>
    have ih := rmdirRec_children_append d rest ys
    simp [Entries.append, rmdirRec.children, ih, orFirst_assoc]

mutual
/-- On a tree whose operations all succeed, the recursive delete helper
performs exactly the spec's depth-first walk — every child removed before
its directory — with no sink message and no error. -/
theorem rmdirRec_allOk (p : String) (t : Entry) (h : allOk t = true) :
    rmdirRec p t = ⟨specDeleteOrder p t, [], none⟩ := by
  cases t with
  | file st rm =>
    simp [allOk] at h
    simp [rmdirRec, specDeleteOrder, h.1, h.2]
  | dir st rd rm ents =>
    simp [allOk] at h
    obtain ⟨⟨⟨hst, hrd⟩, hrm⟩, hents⟩ := h
    have hc := rmdirRec_children_allOk p ents hents
    simp [rmdirRec, specDeleteOrder, hst, hrd, hrm, hc]
/-- Child-list form of `rmdirRec_allOk`. -/
theorem rmdirRec_children_allOk (d : String) (ts : Entries) (h : allOk.children ts = true) :
    rmdirRec.children d ts = ⟨specDeleteOrder.children d ts, [], none⟩ := by
  cases ts with
  | nil => simp [rmdirRec.children, specDeleteOrder.children]
  | cons name ent rest =>
    simp [allOk.children] at h
    obtain ⟨hent, hrest⟩ := h
    have hr := rmdirRec_children_allOk d rest hrest
    cases ent with
    | file st rm =>
      simp [allOk] at hent
      simp [rmdirRec.children, specDeleteOrder.children, specDeleteOrder, hent.2, hr, orFirst]
    | dir st rd rm ents2 =>
      have he := rmdirRec_allOk (join d name) (.dir st rd rm ents2) hent
      simp [rmdirRec.children, specDeleteOrder.children, he, hr, orFirst]
end

/-- C1 (amended): on a directory whose children include a failure, the
helper remembers the first child error, continues processing all remaining
sibling entries, does **not** attempt the removal of the parent directory
itself, and returns the remembered first error: the run is exactly the
child loop's run (the sibling-continuation equation for concatenated child
lists is stated alongside). -/
theorem c1_rmdir_remembers_first_error (d : String) (rm : Bool) (ents xs ys : Entries)
    (er : FsErr) (h : (rmdirRec.children d ents).err = some er) :
    rmdirRec d (.dir true true rm ents) =
      ⟨(rmdirRec.children d ents).attempts, (rmdirRec.children d ents).msgs, some er⟩
    ∧ rmdirRec.children d (Entries.append xs ys) =
      ⟨(rmdirRec.children d xs).attempts ++ (rmdirRec.children d ys).attempts,
        (rmdirRec.children d xs).msgs ++ (rmdirRec.children d ys).msgs,
        orFirst (rmdirRec.children d xs).err (rmdirRec.children d ys).err⟩ := by
  constructor
  · simp [rmdirRec, h]
  · exact rmdirRec_children_append d xs ys

/-- Witness for `c1_rmdir_remembers_first_error` at a concrete tree. -/
theorem c1_rmdir_remembers_first_error_witness :
    (rmdirRec.children "/d" (.cons "a" (.file true false) .nil)).err
        = some (.removeE "/d/a")
    ∧ (rmdirRec "/d" (.dir true true true (.cons "a" (.file true false) .nil)) =
        ⟨(rmdirRec.children "/d" (.cons "a" (.file true false) .nil)).attempts,
          (rmdirRec.children "/d" (.cons "a" (.file true false) .nil)).msgs,
          some (.removeE "/d/a")⟩
      ∧ rmdirRec.children "/d" (Entries.append .nil .nil) =
        ⟨(rmdirRec.children "/d" .nil).attempts ++ (rmdirRec.children "/d" .nil).attempts,
          (rmdirRec.children "/d" .nil).msgs ++ (rmdirRec.children "/d" .nil).msgs,
          orFirst (rmdirRec.children "/d" .nil).err (rmdirRec.children "/d" .nil).err⟩) :=
  ⟨by decide,
    c1_rmdir_remembers_first_error "/d" true (.cons "a" (.file true false) .nil)
      .nil .nil (.removeE "/d/a") (by decide)⟩

/-- C2 (amended): per-item failures of the batch commands pass through the
error sink exactly once each — a batch `rm` run emits exactly one message
per failing item — but the listing engine `_ls` silently skips any match
whose `Stat` fails, and any directory match whose `ReadDir` fails, emitting
no error-sink message for them. -/
theorem c2_sink_exactly_once (wd1 : String) (fs args : List String)
    (wd2 : String) (stat : String → Option LsInfo)
    (readdir : String → Option (List String)) (files : Buckets) (m : String)
    (hs : stat m = none)
    (wd3 : String) (stat2 : String → Option LsInfo)
    (readdir2 : String → Option (List String)) (files2 : Buckets) (m2 : String)
    (hs2 : stat2 m2 = some .dir) (hr2 : readdir2 m2 = none) :
    (rmLoop wd1 fs args).2.length = rmSpecFailures wd1 fs args
    ∧ lsStep wd2 stat readdir files m = (files, [])
    ∧ lsStep wd3 stat2 readdir2 files2 m2 = (files2, []) := by
  refine ⟨?_, ?_, ?_⟩
  · induction args generalizing fs with
    | nil => simp [rmLoop, rmSpecFailures]
    | cons name rest ih =>
      simp only [rmLoop, rmSpecFailures]
      cases h : removeFs fs (join wd1 name) with
      | mk fs2 ok => cases ok <;> simp [ih, Nat.add_comm]
  · unfold lsStep
    cases goRel wd2 m <;> simp [hs]
  · unfold lsStep
    cases goRel wd3 m2 <;> simp [hs2, hr2]

/-- Witness for `c2_sink_exactly_once` at concrete inputs. -/
theorem c2_sink_exactly_once_witness :
    ((fun _ : String => (none : Option LsInfo)) "/w/x" = none
      ∧ (fun _ : String => (some LsInfo.dir : Option LsInfo)) "/w/y" = some .dir
      ∧ (fun _ : String => (none : Option (List String))) "/w/y" = none)
    ∧ ((rmLoop "/w" ["/w/a"] ["a", "b"]).2.length = rmSpecFailures "/w" ["/w/a"] ["a", "b"]
      ∧ lsStep "/w" (fun _ => none) (fun _ => none) [(".", [])] "/w/x" = ([(".", [])], [])
      ∧ lsStep "/w" (fun _ => some .dir) (fun _ => none) [(".", [])] "/w/y"
          = ([(".", [])], [])) :=
  ⟨⟨rfl, rfl, rfl⟩,
    c2_sink_exactly_once "/w" ["/w/a"] ["a", "b"] "/w" (fun _ => none) (fun _ => none)
      [(".", [])] "/w/x" rfl "/w" (fun _ => some .dir) (fun _ => none) [(".", [])] "/w/y"
      rfl rfl⟩

/-- C5 (amended): `rmdir`'s helper performs the recursive delete as the
spec's depth-first walk — on a tree whose operations all succeed its
`Remove` calls are exactly the walk's order, children before their
directory — and per-child failures reach the error sink (see
`c1_rmdir_remembers_first_error`); `lrmdir`, however, delegates each
argument to the OS's `RemoveAll` and reports at most one failure per
argument through the error sink, not one per child. -/
theorem c5_delete_walk (p : String) (t : Entry) (h : allOk t = true)
    (wd name : String) (ent : Entry) :
    rmdirRec p t = ⟨specDeleteOrder p t, [], none⟩
    ∧ (lrmdirArg wd name ent).length ≤ 1 := by
  refine ⟨rmdirRec_allOk p t h, ?_⟩
  unfold lrmdirArg
  cases removeAllE (join wd name) ent <;> simp

/-- Witness for `c5_delete_walk` at a concrete tree. -/
theorem c5_delete_walk_witness :
    allOk (.dir true true true (.cons "a" (.file true true)
        (.cons "sub" (.dir true true true (.cons "x" (.file true true) .nil)) .nil))) = true
    ∧ (rmdirRec "/w/d" (.dir true true true (.cons "a" (.file true true)
          (.cons "sub" (.dir true true true (.cons "x" (.file true true) .nil)) .nil)))
        = ⟨specDeleteOrder "/w/d" (.dir true true true (.cons "a" (.file true true)
            (.cons "sub" (.dir true true true (.cons "x" (.file true true) .nil)) .nil))),
            [], none⟩
      ∧ (lrmdirArg "/w" "d" (.file true false)).length ≤ 1) :=
  ⟨by decide,
    c5_delete_walk "/w/d"
      (.dir true true true (.cons "a" (.file true true)
        (.cons "sub" (.dir true true true (.cons "x" (.file true true) .nil)) .nil)))
      (by decide) "/w" "d" (.file true false)⟩

/-- Witness for `c6_rm_batch` at a concrete store. -/
theorem c6_rm_batch_witness :
    (join "/w" "a" ∈ ["/w/a", "/w/c"] ∧ join "/w" "b" ∉ ["/w/a", "/w/c"]
      ∧ join "/w" "c" ∈ ["/w/a", "/w/c"] ∧ join "/w" "a" ≠ join "/w" "c")
    ∧ (join "/w" "a" ∉ (rmCmd "/w" ["/w/a", "/w/c"] ["a", "b", "c"]).fs
      ∧ join "/w" "c" ∉ (rmCmd "/w" ["/w/a", "/w/c"] ["a", "b", "c"]).fs
      ∧ (rmCmd "/w" ["/w/a", "/w/c"] ["a", "b", "c"]).msgs.length = 1
      ∧ (rmCmd "/w" ["/w/a", "/w/c"] ["a", "b", "c"]).out = ""
      ∧ (rmCmd "/w" ["/w/a", "/w/c"] ["a", "b", "c"]).err = none) :=
  ⟨by decide,
    c6_rm_batch "/w" "a" "b" "c" ["/w/a", "/w/c"]
      (by decide) (by decide) (by decide) (by decide)⟩

/-- Witness for `c4_copydir_tolerates_already` at a concrete source tree. -/
theorem c4_copydir_tolerates_already_witness :
    (fun _ : String => MkRes.already) (join "/loc" (baseS "/rem/s")) = .already
    ∧ ((getdirM (fun _ => .already) "/loc" "/rem/s" (.dirS true .nil) =
        ⟨join "/loc" (baseS "/rem/s")
            :: (getdirM.kids (fun _ => .already) (join "/loc" (baseS "/rem/s")) "/rem/s" .nil).mks,
          (getdirM.kids (fun _ => .already) (join "/loc" (baseS "/rem/s")) "/rem/s" .nil).copies,
          (getdirM.kids (fun _ => .already) (join "/loc" (baseS "/rem/s")) "/rem/s" .nil).msgs,
          (getdirM.kids (fun _ => .already) (join "/loc" (baseS "/rem/s")) "/rem/s" .nil).infos
            ++ ["downloaded " ++ "/rem/s"],
          none⟩)
      ∧ (putdirM (fun _ => .already) "/loc" "/rem/s" (.dirS true .nil) =
        ⟨join "/loc" (baseS "/rem/s")
            :: (putdirM.kids (fun _ => .already) (join "/loc" (baseS "/rem/s")) "/rem/s" .nil).mks,
          (putdirM.kids (fun _ => .already) (join "/loc" (baseS "/rem/s")) "/rem/s" .nil).copies,
          (putdirM.kids (fun _ => .already) (join "/loc" (baseS "/rem/s")) "/rem/s" .nil).msgs,
          (putdirM.kids (fun _ => .already) (join "/loc" (baseS "/rem/s")) "/rem/s" .nil).infos
            ++ ["uploaded " ++ "/rem/s"],
          none⟩)) :=
  ⟨rfl, c4_copydir_tolerates_already (fun _ => .already) "/loc" "/rem/s" .nil rfl⟩

/-- `splitSlashGo` distributes over a slash-separated concatenation. -/
theorem splitSlashGo_append (a : List Char) : ∀ (acc b : List Char),
    splitSlashGo acc (a ++ '/' :: b) = splitSlashGo acc a ++ splitSlash b := by
  induction a with
  | nil =>
    intro acc b
    by_cases h : acc = [] <;> simp [splitSlashGo, splitSlash, h]
  | cons c a' ih =>
    intro acc b
    by_cases hc : c = '/'
    · subst hc
      by_cases h : acc = [] <;> simp [splitSlashGo, h, ih]
    · simp [splitSlashGo, hc, ih]

/-- The segments of `a ++ "/" ++ b` are the segments of `a` followed by the
segments of `b`. -/
theorem splitSlash_append (a b : List Char) :
    splitSlash (a ++ '/' :: b) = splitSlash a ++ splitSlash b :=
  splitSlashGo_append a [] b

/-- Cleaning segments that contain no `".."` from any starting stack only
pushes: the `"."` segments are dropped and the rest land on the stack in
reverse order. -/
theorem foldl_cleanStep_no_dotdot (B : List (List Char)) :
    ∀ (S : List (List Char)), ['.', '.'] ∉ B →
      List.foldl (cleanStep true) S B = (B.filter (fun s => s ≠ ['.'])).reverse ++ S := by
  induction B with
  | nil => intro S _; simp
  | cons seg B' ih =>
    intro S h
    have hseg : seg ≠ ['.', '.'] := fun he => h (by simp [he])
    have hB' : ['.', '.'] ∉ B' := fun he => h (by simp [he])
    by_cases hdot : seg = ['.']
    · simp [List.foldl_cons, cleanStep, hdot, ih _ hB']
    · simp only [List.foldl_cons, cleanStep, if_neg hdot, if_neg hseg, ih _ hB']
      simp [hdot]

/-- Slash-joining splits over a concatenation of nonempty segment lists. -/
theorem interSlash_append (R F : List (List Char)) (hR : R ≠ []) (hF : F ≠ []) :
    interSlash (R ++ F) = interSlash R ++ '/' :: interSlash F := by
  induction R with
  | nil => exact absurd rfl hR
  | cons r R' ih =>
    cases R' with
    | nil =>
      cases F with
      | nil => exact absurd rfl hF
      | cons f F' => simp [interSlash]
    | cons r2 R'' =>
      have h2 := ih (by simp)
      simp only [List.cons_append] at h2 ⊢
      have e1 : interSlash (r :: r2 :: (R'' ++ F)) = r ++ '/' :: interSlash (r2 :: (R'' ++ F)) := rfl
      have e2 : interSlash (r :: r2 :: R'') = r ++ '/' :: interSlash (r2 :: R'') := rfl
      rw [e1, e2, h2]
      simp

/-- Appending further segments only extends the slash-joined rendering. -/
theorem interSlash_prefix (R F : List (List Char)) :
    interSlash R <+: interSlash (R ++ F) := by
  by_cases hF : F = []
  · simp [hF]
  · by_cases hR : R = []
    · subst hR
      simp only [List.nil_append]
      exact List.nil_prefix
    · rw [interSlash_append R F hR hF]
      exact List.prefix_append _ _

/-- `goClean` on a rooted path is the rendered cleaning of its segments. -/
theorem goClean_rooted (x : List Char) :
    goClean ('/' :: x)
      = renderClean true (List.foldl (cleanStep true) [] (splitSlash ('/' :: x))) := rfl

/-- A clean rooted working directory survives as a prefix of
`filepath.Join` with any relative path free of `".."` segments. -/
theorem goJoin2_root_prefix (wd' p : List Char)
    (hclean : goClean ('/' :: wd') = '/' :: wd')
    (hdd : ['.', '.'] ∉ splitSlash p) :
    ('/' :: wd') <+: goJoin2 ('/' :: wd') p := by
  by_cases hb : p = []
  · subst hb
    unfold goJoin2
    rw [if_neg (by simp), if_pos rfl, hclean]
  · unfold goJoin2
    rw [if_neg (by simp), if_neg hb]
    have hA : ('/' :: wd') ++ '/' :: p = '/' :: (wd' ++ '/' :: p) := by simp
    rw [show goClean (('/' :: wd') ++ '/' :: p) = goClean ('/' :: (wd' ++ '/' :: p)) from by rw [hA]]
    rw [goClean_rooted]
    have hsp : splitSlash ('/' :: (wd' ++ '/' :: p)) = splitSlash ('/' :: wd') ++ splitSlash p := by
      rw [← hA]
      exact splitSlash_append _ p
    rw [hsp, List.foldl_append]
    set S := List.foldl (cleanStep true) [] (splitSlash ('/' :: wd')) with hS
    rw [foldl_cleanStep_no_dotdot (splitSlash p) S hdd]
    have hrender : renderClean true ((List.filter (fun s => s ≠ ['.']) (splitSlash p)).reverse ++ S)
        = '/' :: interSlash (S.reverse ++ List.filter (fun s => s ≠ ['.']) (splitSlash p)) := by
      unfold renderClean
      simp [List.reverse_append]
    rw [hrender]
    have hwd : '/' :: wd' = '/' :: interSlash S.reverse := by
      conv_lhs => rw [← hclean]
      rw [goClean_rooted wd']
      rfl
    rw [hwd]
    exact List.cons_prefix_cons.2 ⟨rfl, interSlash_prefix _ _⟩

/-- C3 (amended): for every clean absolute working directory `wd` and every
path `p` that does not start with the separator and has no `".."`
component, `join(wd, p)` starts with `wd`, and if `p` ends with the
separator then so does `join(wd, p)`. -/
theorem c3_join_keeps_wd (wd p : List Char)
    (hroot : wd.head? = some '/')
    (hclean : goClean wd = wd)
    (hp : ¬ p.head? = some '/')
    (hdd : ['.', '.'] ∉ splitSlash p) :
    wd <+: joinC wd p ∧ (p.getLast? = some '/' → (joinC wd p).getLast? = some '/') := by
  obtain ⟨wd', rfl⟩ : ∃ t, wd = '/' :: t := by
    cases wd with
    | nil => simp at hroot
    | cons c t =>
      have hc : c = '/' := by simpa using hroot
      exact ⟨t, by rw [hc]⟩
  have key := goJoin2_root_prefix wd' p hclean hdd
  unfold joinC
  rw [if_neg hp]
  by_cases hl : p.getLast? = some '/'
  · rw [if_pos hl]
    refine ⟨key.trans (List.prefix_append _ _), fun _ => ?_⟩
    simp
  · rw [if_neg hl]
    exact ⟨key, fun h => absurd h hl⟩

/-- Witness for `c3_join_keeps_wd` at `wd = "/a"`, `p = "b/"`. -/
theorem c3_join_keeps_wd_witness :
    ((['/', 'a'] : List Char).head? = some '/'
      ∧ goClean ['/', 'a'] = ['/', 'a']
      ∧ ¬ (['b', '/'] : List Char).head? = some '/'
      ∧ ['.', '.'] ∉ splitSlash ['b', '/'])
    ∧ ((['/', 'a'] : List Char) <+: joinC ['/', 'a'] ['b', '/']
      ∧ ((['b', '/'] : List Char).getLast? = some '/' →
          (joinC ['/', 'a'] ['b', '/']).getLast? = some '/')) :=
  ⟨by decide,
    c3_join_keeps_wd ['/', 'a'] ['b', '/'] (by decide) (by decide) (by decide) (by decide)⟩

end Vssh
